import Mathlib

/-!
Verification of the GGS node core (model-synchronization engine, crypto
suite, consensus engine, topology selector) against its specification.

Embedding conventions:
* Rust numeric types are embedded as follows: `f32`/`f64` as `ℚ`
  (the spec's arithmetic claims are about the exact formulas the code
  computes, so rational exactness is the faithful level of abstraction;
  numeric literals such as `0.5`, `0.8`, `0.1` denote the decimal values
  written in the source), `u32`/`u64`/`usize` as `ℕ` with explicit
  modulus or saturation wherever the source's overflow behaviour matters.
* `usize` subtraction is checked: Rust defines integer overflow in
  `a - b` as a program error (a panic under debug assertions), so the
  producer `make_sparse_update` is embedded with `Option`, `none`
  standing for the panic caused by an underflowing index difference.
* Rust's `slice::sort_by` is a stable sort; `stable_sort` below is the
  structurally recursive stable insertion sort, which agrees with every
  stable sort on any total preorder, here instantiated with the exact
  comparators of the source (descending magnitude, descending score).
* The elliptic-curve primitives (secp256k1 / ed25519 signing and
  verification, hex and base58 codecs) live in external crates; they are
  abstracted as oracle fields of the identity structures, while the
  address/pubkey gating logic of `crypto.rs` is embedded verbatim.
* `Instant`-valued `last_seen` fields only feed staleness eviction,
  which no claim below touches; they are omitted from the records.
-/

/-- types.rs: a sparse, delta-encoded slice of the parameter vector.
`indices` holds `u32` index differences, `values` the emitted entries. -/
structure SparseUpdate where
  indices : List Nat
  values : List ℚ
  version : Nat
deriving DecidableEq, Repr

/-- types.rs: a dense copy of the parameter vector with its version. -/
structure TensorSnapshot where
  dim : Nat
  values : List ℚ
  version : Nat
deriving DecidableEq, Repr

/-- inference.rs `ModelState`: parameters, error-feedback residual, and a
monotone `u64` version counter. -/
structure ModelState where
  params : List ℚ
  residual : List ℚ
  version : Nat
deriving DecidableEq, Repr

/-- types.rs `decompress_indices` inner loop: running sum of differences. -/
def decompress_go (last : Nat) : List Nat → List Nat
  | [] => []
  | diff :: rest => (last + diff) :: decompress_go (last + diff) rest

/-- types.rs `decompress_indices`: turn delta-encoded indices back into
absolute positions (`next = last + diff`, starting from 0). -/
def decompress_indices (compressed : List Nat) : List Nat :=
  decompress_go 0 compressed

/-- f32::abs, written out so that it evaluates by kernel reduction. -/
def qabs (x : ℚ) : ℚ := if x < 0 then -x else x

/-- Stable insertion of `x` into an already sorted list: `x` moves past
exactly the elements it must strictly follow (`goes_after x y = true`),
so equal-rank elements keep their original relative order, as Rust's
stable `sort_by` guarantees. -/
def sort_insert (goes_after : α → α → Bool) (x : α) : List α → List α
  | [] => [x]
  | y :: ys => if goes_after x y then y :: sort_insert goes_after x ys else x :: y :: ys

/-- Stable sort by the strict relation `goes_after x y` = "x must be
placed strictly after y". Agrees with `slice::sort_by` for the total
preorders used in the source. -/
def stable_sort (goes_after : α → α → Bool) : List α → List α
  | [] => []
  | x :: xs => sort_insert goes_after x (stable_sort goes_after xs)

/-- inference.rs lines 79-91: `delta[i] = params[i] + residual[i]`,
enumerate, sort by descending absolute value (stable), keep the first
`min k dim` entries. The engine maintains
`residual.length = params.length`, so `zipWith` is the loop over
`0..dim`. -/
def top_k (s : ModelState) (k : Nat) : List (Nat × ℚ) :=
  let delta := List.zipWith (· + ·) s.params s.residual
  (stable_sort (fun a b => qabs a.2 < qabs b.2) delta.enum).take (min k s.params.length)

/-- Saturating `u64` increment (`saturating_add(1)` in the source). -/
def u64_sadd1 (v : Nat) : Nat := min (v + 1) (2 ^ 64 - 1)

/-- inference.rs lines 94-105: the emission loop. For each selected pair
`(i, v)` push the `u32` index difference (`i` itself when the output is
still empty, otherwise `i - last`, a checked `usize` subtraction that
panics — `none` — on underflow, then truncated by `as u32`), push the
value, and set `residual[i] = delta[i] - v`. -/
def emit_loop (delta : List ℚ) :
    List (Nat × ℚ) → List Nat → List ℚ → Nat → List ℚ →
    Option (List Nat × List ℚ × List ℚ)
  | [], sparse_idx, sparse_vals, _, residual => some (sparse_idx, sparse_vals, residual)
  | (i, v) :: rest, sparse_idx, sparse_vals, last, residual =>
    if sparse_idx.isEmpty then
      emit_loop delta rest (sparse_idx ++ [i % 2 ^ 32]) (sparse_vals ++ [v]) i
        (residual.set i (delta.getD i 0 - v))
    else if last ≤ i then
      emit_loop delta rest (sparse_idx ++ [(i - last) % 2 ^ 32]) (sparse_vals ++ [v]) i
        (residual.set i (delta.getD i 0 - v))
    else
      none

/-- inference.rs `make_sparse_update`: if `dim == 0` return an empty
update carrying the current version and leave the state alone; otherwise
select the top-k entries of `params + residual` by magnitude, emit them
delta-encoded (panicking — `none` — if an index difference underflows),
zero the residual at the emitted positions, and bump the version
(saturating). Returns the update together with the post-state. -/
def make_sparse_update (s : ModelState) (k : Nat) : Option (SparseUpdate × ModelState) :=
  let dim := s.params.length
  if dim = 0 then
    some (⟨[], [], s.version⟩, s)
  else
    let delta := List.zipWith (· + ·) s.params s.residual
    match emit_loop delta (top_k s k) [] [] 0 s.residual with
    | none => none
    | some (sparse_idx, sparse_vals, residual) =>
      let v := u64_sadd1 s.version
      some (⟨sparse_idx, sparse_vals, v⟩, ⟨s.params, residual, v⟩)

/-- inference.rs lines 120-127: one iteration of the application loop.
For an in-range position, blend `params[pos]` fifty-fifty with the
incoming value and add the lost half to the residual; out-of-range
positions change nothing. -/
def apply_pairs : List (Nat × ℚ) → List ℚ × List ℚ → List ℚ × List ℚ
  | [], st => st
  | (pos, v) :: rest, (params, residual) =>
    if pos < params.length then
      apply_pairs rest
        (params.set pos (0.5 * params.getD pos 0 + 0.5 * v),
         residual.set pos
           (residual.getD pos 0 + (params.getD pos 0 - (0.5 * params.getD pos 0 + 0.5 * v))))
    else
      apply_pairs rest (params, residual)

/-- inference.rs `apply_sparse_update`: early-return when `indices` is
empty; otherwise decode the indices, run the application loop over the
zipped (position, value) pairs, and raise the version to
`max version u.version`. -/
def apply_sparse_update (s : ModelState) (u : SparseUpdate) : ModelState :=
  if u.indices.isEmpty then s
  else
    let idxs := decompress_indices u.indices
    let st := apply_pairs (idxs.zip u.values) (s.params, s.residual)
    ⟨st.1, st.2, max s.version u.version⟩

/-- inference.rs lines 133-136: the dense-blend loop
`params[i] = 0.8 * params[i] + 0.2 * values[i]` over
`i in 0..min(D, len(values))`, written structurally: the common prefix
is blended, the rest of `params` is kept. -/
def dense_blend : List ℚ → List ℚ → List ℚ
  | p :: ps, v :: vs => (0.8 * p + 0.2 * v) :: dense_blend ps vs
  | ps, [] => ps
  | [], _ :: _ => []

/-- inference.rs `apply_dense_snapshot`: blend the snapshot values into
the parameter prefix and raise the version to `max version s.version`. -/
def apply_dense_snapshot (s : ModelState) (snapshot : TensorSnapshot) : ModelState :=
  ⟨dense_blend s.params snapshot.values, s.residual, max s.version snapshot.version⟩

/-- The concrete state of spec §8 scenario 1: D = 8, zero parameters,
residual as given, version 1. -/
def c1_state : ModelState :=
  ⟨[0, 0, 0, 0, 0, 0, 0, 0],
   [0.1, -0.9, 0.5, 0.05, -0.2, 0.7, 0, 0.3], 1⟩

/-- A 2-dimensional state whose two delta magnitudes are in increasing
index order, so the magnitude-sorted selection visits index 1 before
index 0. -/
def c2_state : ModelState := ⟨[0, 0], [1, 2], 1⟩

/-- A 3-dimensional state whose magnitude-sorted selection visits index
2 before index 0. -/
def c9_state : ModelState := ⟨[0, 0, 0], [1, 0, 2], 1⟩

/-- A 1-dimensional state with version 5, used for the `k = 0` calls. -/
def c3_state : ModelState := ⟨[0], [0], 5⟩

/-- crypto.rs `EthSignature`: embedded signer address and hex signature. -/
structure EthSignature where
  address : String
  signature : String
deriving DecidableEq, Repr

/-- crypto.rs `SolSignature`: embedded signer pubkey and base58 signature. -/
structure SolSignature where
  pubkey : String
  signature : String
deriving DecidableEq, Repr

/-- crypto.rs `SignatureBundle`: the two parallel signatures. -/
structure SignatureBundle where
  eth : EthSignature
  sol : SolSignature
deriving DecidableEq, Repr

/-- crypto.rs `EthIdentity`. The secp256k1 key material lives in the
`k256` crate; it is abstracted by two oracles: `sig_valid payload sig`
stands for the hex-decode / parse / `verifying_key.verify(keccak(payload))`
chain of lines 127-132, and `sig_hex payload` for the signature hex
string produced by `sign` (line 116-119). `address` is the node's own
derived address string. -/
structure EthIdentity where
  address : String
  sig_valid : List Nat → String → Bool
  sig_hex : List Nat → String

/-- str::to_lowercase as used on the ASCII hex addresses of crypto.rs,
written per character over the underlying data so it evaluates by kernel
reduction. -/
def to_lowercase (s : String) : String := String.mk (s.data.map Char.toLower)

/-- crypto.rs `EthIdentity::sign`: a bundle half carrying the node's own
address and the produced signature. -/
def EthIdentity.sign (id : EthIdentity) (payload : List Nat) : EthSignature :=
  ⟨id.address, id.sig_hex payload⟩

/-- crypto.rs `EthIdentity::verify` (lines 123-134): reject unless the
embedded address equals the node's own address case-insensitively, then
defer to the curve-level check. -/
def EthIdentity.verify (id : EthIdentity) (payload : List Nat) (sig : EthSignature) : Bool :=
  if to_lowercase sig.address ≠ to_lowercase id.address then false
  else id.sig_valid payload sig.signature

/-- crypto.rs `SolIdentity`, with the ed25519 material of the
`ed25519_dalek` crate abstracted the same way as for `EthIdentity`. -/
structure SolIdentity where
  pubkey : String
  sig_valid : List Nat → String → Bool
  sig_b58 : List Nat → String

/-- crypto.rs `SolIdentity::sign`. -/
def SolIdentity.sign (id : SolIdentity) (payload : List Nat) : SolSignature :=
  ⟨id.pubkey, id.sig_b58 payload⟩

/-- crypto.rs `SolIdentity::verify` (lines 174-184): reject unless the
embedded pubkey equals the node's own (exact string equality), then
defer to the curve-level check. -/
def SolIdentity.verify (id : SolIdentity) (payload : List Nat) (sig : SolSignature) : Bool :=
  if sig.pubkey ≠ id.pubkey then false
  else id.sig_valid payload sig.signature

/-- crypto.rs `CryptoSuite`: the two identities. -/
structure CryptoSuite where
  eth : EthIdentity
  sol : SolIdentity

/-- crypto.rs `CryptoSuite::sign_bytes`: both signatures over the same
payload. -/
def CryptoSuite.sign_bytes (c : CryptoSuite) (payload : List Nat) : SignatureBundle :=
  ⟨c.eth.sign payload, c.sol.sign payload⟩

/-- crypto.rs `CryptoSuite::verify` (lines 73-75): conjunction of the
two per-curve verifications. -/
def CryptoSuite.verify (c : CryptoSuite) (payload : List Nat) (sig : SignatureBundle) : Bool :=
  c.eth.verify payload sig.eth && c.sol.verify payload sig.sol

/-- types.rs `GeoPoint` (distance computation not needed by the claims). -/
structure GeoPoint where
  lat : ℚ
  lon : ℚ
deriving DecidableEq, Repr

/-- types.rs `GgsMessage`: the four gossip payload variants. -/
inductive GgsMessage where
  | heartbeat (peer : String) (model_hash : String)
  | sparse_update_msg (update : SparseUpdate) (sender : String)
  | dense_snapshot_msg (snapshot : TensorSnapshot) (sender : String)
  | similarity_probe (embedding : List ℚ) (position : GeoPoint) (sender : String)
deriving DecidableEq, Repr

/-- consensus.rs lines 62-67: the peer id embedded in a payload
(`heartbeat.peer` or the `sender` field). -/
def GgsMessage.peer_id : GgsMessage → String
  | .heartbeat peer _ => peer
  | .sparse_update_msg _ sender => sender
  | .dense_snapshot_msg _ sender => sender
  | .similarity_probe _ _ sender => sender

/-- consensus.rs `SignedGossip`. -/
structure SignedGossip where
  payload : GgsMessage
  signature : SignatureBundle
  staking_score : ℚ

/-- consensus.rs `ConsensusEngine`, shorn of time: `serialize` abstracts
the deterministic `serde_json::to_vec` canonical serialization (the same
function is used by `sign` and `verify`), and `ledger_weight` abstracts
the ledger lookup composed with `StakeRecord::combined_weight`
(`none` = peer absent). -/
structure ConsensusEngine where
  crypto : CryptoSuite
  serialize : GgsMessage → List Nat
  ledger_weight : String → Option ℚ

/-- consensus.rs `ConsensusEngine::sign` (lines 59-79): serialize the
payload, sign the bytes, attach the embedded peer's combined weight
(default 0.1). -/
def ConsensusEngine.sign (e : ConsensusEngine) (payload : GgsMessage) : SignedGossip :=
  ⟨payload, e.crypto.sign_bytes (e.serialize payload),
   (e.ledger_weight payload.peer_id).getD 0.1⟩

/-- consensus.rs `ConsensusEngine::verify` (lines 81-86): re-serialize
the payload and defer to the crypto suite. -/
def ConsensusEngine.verify (e : ConsensusEngine) (msg : SignedGossip) : Bool :=
  e.crypto.verify (e.serialize msg.payload) msg.signature

/-- topology.rs `PeerProfile` (the `Instant`-valued `last_seen` only
feeds staleness eviction, which `neighbor_sets` never consults). -/
structure PeerProfile where
  embedding : List ℚ
  position : GeoPoint
  similarity : ℚ
  geo_affinity : ℚ
  score : ℚ
deriving DecidableEq, Repr

/-- topology.rs `TopologyConfig` (the fields `neighbor_sets` reads). -/
structure TopologyConfig where
  max_neighbors : Nat
  failover_pool : Nat
  min_score : ℚ

/-- topology.rs line 94: rank the peer entries by score descending;
Rust's `sort_by` is stable, and on `ℚ` the comparator
`b.score.partial_cmp(&a.score).unwrap_or(Equal)` is the total preorder
"descending by score". -/
def rank_peers (peers : List (String × PeerProfile)) : List (String × PeerProfile) :=
  stable_sort (fun a b => a.2.score < b.2.score) peers

/-- topology.rs lines 97-108: the fill loop. Skip profiles below
`min_score`, fill `primary` to `max_neighbors`, then `backups` to
`failover_pool`, and break once both are full. -/
def neighbor_fill (cfg : TopologyConfig) :
    List (String × PeerProfile) → List String → List String → List String × List String
  | [], primary, backups => (primary, backups)
  | (peer, profile) :: rest, primary, backups =>
    if profile.score < cfg.min_score then
      neighbor_fill cfg rest primary backups
    else if primary.length < cfg.max_neighbors then
      neighbor_fill cfg rest (primary ++ [peer]) backups
    else if backups.length < cfg.failover_pool then
      neighbor_fill cfg rest primary (backups ++ [peer])
    else
      (primary, backups)

/-- topology.rs `TopologySelector::neighbor_sets` over the peer map,
taken here as the association list the `HashMap` iteration yields. -/
def neighbor_sets (cfg : TopologyConfig) (peers : List (String × PeerProfile)) :
    List String × List String :=
  neighbor_fill cfg (rank_peers peers) [] []

/-- The ranked entries that survive the `min_score` admission test. -/
def eligible_ranked (cfg : TopologyConfig) (peers : List (String × PeerProfile)) :
    List (String × PeerProfile) :=
  (rank_peers peers).filter (fun x => cfg.min_score ≤ x.2.score)

/-- A 1-dimensional state with version 5, receiver of an empty update. -/
def c4_state : ModelState := ⟨[1], [0], 5⟩

/-- An empty sparse update carrying version 10. -/
def c4_update : SparseUpdate := ⟨[], [], 10⟩

/-- Spec §8 scenario 3 receiver: D = 3, zero parameters, version 5. -/
def w4_state : ModelState := ⟨[0, 0, 0], [0, 0, 0], 5⟩

/-- Spec §8 scenario 3 update: decoded indices [1, 5] (delta-encoded
[1, 4]), values [4, 9], version 7. -/
def w4_update : SparseUpdate := ⟨[1, 4], [4, 9], 7⟩

/-- A small state receiving an empty update with a larger version. -/
def c10_state : ModelState := ⟨[1], [2], 3⟩

/-- An empty sparse update carrying version 9. -/
def c10_update : SparseUpdate := ⟨[], [], 9⟩

/-- Spec §8 scenario 2 receiver: D = 2, params [1, 2], version 5. -/
def c5_state : ModelState := ⟨[1, 2], [0, 0], 5⟩

/-- Spec §8 scenario 2 snapshot: values [3, -2], version 10. -/
def c5_snapshot : TensorSnapshot := ⟨2, [3, -2], 10⟩

/-- A concrete crypto suite whose curve-level oracles accept every
signature string, isolating the address/pubkey gating. -/
def c6_suite : CryptoSuite :=
  ⟨⟨("0xAbCd"), fun _ _ => true, fun _ => ("ethsig")⟩,
   ⟨("PubKey1"), fun _ _ => true, fun _ => ("solsig")⟩⟩

/-- A bundle embedding the suite's own address (in different case) and
its own pubkey. -/
def c6_bundle : SignatureBundle := ⟨⟨("0xABCD"), ("x")⟩, ⟨("PubKey1"), ("y")⟩⟩

/-- A bundle embedding a different peer's pubkey. -/
def c6_bundle_other : SignatureBundle := ⟨⟨("0xAbCd"), ("x")⟩, ⟨("PubKey2"), ("y")⟩⟩

/-- A concrete consensus engine: trivial oracles, a length-based
serializer, an empty ledger. -/
def c7_engine : ConsensusEngine :=
  ⟨⟨⟨("0xAbCd"), fun _ _ => true, fun _ => ("ethsig")⟩,
    ⟨("PubKey1"), fun _ _ => true, fun _ => ("solsig")⟩⟩,
   fun m => [m.peer_id.length], fun _ => none⟩

/-- Spec §8 scenario 4 configuration: two primaries, one backup,
admission threshold 0.2. -/
def c8_cfg : TopologyConfig := ⟨2, 1, 0.2⟩

/-- Profile with a given score (embedding and position immaterial to
ranking). -/
def c8_profile (score : ℚ) : PeerProfile := ⟨[], ⟨0, 0⟩, score, score, score⟩

/-- Spec §8 scenario 4 peer map: scores A 0.9, B 0.5, C 0.3, D 0.1. -/
def c8_peers : List (String × PeerProfile) :=
  [(("A"), c8_profile 0.9), (("B"), c8_profile 0.5),
   (("C"), c8_profile 0.3), (("D"), c8_profile 0.1)]

/-- Setting one position leaves `getD` at any other position alone. -/
theorem getD_set_ne {α : Type} (l : List α) (i j : Nat) (a d : α) (h : i ≠ j) :
    (l.set i a).getD j d = l.getD j d := by
  simp [List.getD_eq_getElem?_getD, List.getElem?_set_ne h]

/-- Setting an in-range position makes `getD` there return the new value. -/
theorem getD_set_self {α : Type} (l : List α) (j : Nat) (a d : α) (h : j < l.length) :
    (l.set j a).getD j d = a := by
  simp [List.getD_eq_getElem?_getD, List.getElem?_set_self, h]

/-- The application loop preserves the lengths of both vectors. -/
theorem apply_pairs_length (L : List (Nat × ℚ)) : ∀ ps rs : List ℚ,
    (apply_pairs L (ps, rs)).1.length = ps.length ∧
    (apply_pairs L (ps, rs)).2.length = rs.length := by
  induction L with
  | nil => intro ps rs; simp [apply_pairs]
  | cons hd tl ih =>
    intro ps rs
    obtain ⟨pos, v⟩ := hd
    by_cases h : pos < ps.length
    · simpa [apply_pairs, h] using ih (ps.set pos _) (rs.set pos _)
    · simpa [apply_pairs, h] using ih ps rs

/-- Positions not decoded by the update are untouched by the loop. -/
theorem apply_pairs_frame (L : List (Nat × ℚ)) : ∀ ps rs : List ℚ, ∀ j : Nat,
    j ∉ L.map Prod.fst →
    (apply_pairs L (ps, rs)).1.getD j 0 = ps.getD j 0 ∧
    (apply_pairs L (ps, rs)).2.getD j 0 = rs.getD j 0 := by
  induction L with
  | nil => intro ps rs j _; simp [apply_pairs]
  | cons hd tl ih =>
    intro ps rs j hj
    obtain ⟨pos, v⟩ := hd
    simp only [List.map_cons, List.mem_cons, not_or] at hj
    obtain ⟨hne, hj'⟩ := hj
    by_cases h : pos < ps.length
    · have hstep := ih (ps.set pos (0.5 * ps.getD pos 0 + 0.5 * v))
        (rs.set pos (rs.getD pos 0 + (ps.getD pos 0 - (0.5 * ps.getD pos 0 + 0.5 * v)))) j hj'
      refine ⟨?_, ?_⟩
      · rw [show apply_pairs ((pos, v) :: tl) (ps, rs) =
            apply_pairs tl (ps.set pos (0.5 * ps.getD pos 0 + 0.5 * v),
              rs.set pos (rs.getD pos 0 + (ps.getD pos 0 - (0.5 * ps.getD pos 0 + 0.5 * v))))
            from by simp [apply_pairs, h]]
        rw [hstep.1, getD_set_ne _ _ _ _ _ (Ne.symm hne)]
      · rw [show apply_pairs ((pos, v) :: tl) (ps, rs) =
            apply_pairs tl (ps.set pos (0.5 * ps.getD pos 0 + 0.5 * v),
              rs.set pos (rs.getD pos 0 + (ps.getD pos 0 - (0.5 * ps.getD pos 0 + 0.5 * v))))
            from by simp [apply_pairs, h]]
        rw [hstep.2, getD_set_ne _ _ _ _ _ (Ne.symm hne)]
    · simpa [apply_pairs, h] using ih ps rs j hj'

/-- When the decoded positions are pairwise distinct, the loop realizes
the per-entry blend exactly once at each in-range position. -/
theorem apply_pairs_point (L : List (Nat × ℚ)) : ∀ ps rs : List ℚ,
    rs.length = ps.length → (L.map Prod.fst).Nodup →
    ∀ pos : Nat, ∀ v : ℚ, (pos, v) ∈ L → pos < ps.length →
    (apply_pairs L (ps, rs)).1.getD pos 0 = 0.5 * ps.getD pos 0 + 0.5 * v ∧
    (apply_pairs L (ps, rs)).2.getD pos 0 =
      rs.getD pos 0 + (ps.getD pos 0 - (0.5 * ps.getD pos 0 + 0.5 * v)) := by
  induction L with
  | nil => intro ps rs _ _ pos v hmem; simp at hmem
  | cons hd tl ih =>
    intro ps rs hlen hnd pos v hmem hlt
    obtain ⟨p0, v0⟩ := hd
    simp only [List.map_cons, List.nodup_cons] at hnd
    obtain ⟨hp0, hnd'⟩ := hnd
    rcases List.mem_cons.mp hmem with heq | hmem'
    · obtain ⟨h1, h2⟩ := Prod.mk.injEq .. ▸ heq
      subst h1; subst h2
      have hstep : apply_pairs ((pos, v) :: tl) (ps, rs) =
          apply_pairs tl (ps.set pos (0.5 * ps.getD pos 0 + 0.5 * v),
            rs.set pos (rs.getD pos 0 + (ps.getD pos 0 - (0.5 * ps.getD pos 0 + 0.5 * v)))) := by
        simp [apply_pairs, hlt]
      have hfr := apply_pairs_frame tl
        (ps.set pos (0.5 * ps.getD pos 0 + 0.5 * v))
        (rs.set pos (rs.getD pos 0 + (ps.getD pos 0 - (0.5 * ps.getD pos 0 + 0.5 * v))))
        pos hp0
      refine ⟨?_, ?_⟩
      · rw [hstep, hfr.1, getD_set_self _ _ _ _ hlt]
      · rw [hstep, hfr.2, getD_set_self _ _ _ _ (by omega)]
    · have hpos_mem : pos ∈ tl.map Prod.fst := List.mem_map_of_mem Prod.fst hmem'
      have hne : p0 ≠ pos := fun hh => hp0 (hh ▸ hpos_mem)
      by_cases h : p0 < ps.length
      · have hstep : apply_pairs ((p0, v0) :: tl) (ps, rs) =
            apply_pairs tl (ps.set p0 (0.5 * ps.getD p0 0 + 0.5 * v0),
              rs.set p0 (rs.getD p0 0 + (ps.getD p0 0 - (0.5 * ps.getD p0 0 + 0.5 * v0)))) := by
          simp [apply_pairs, h]
        have hres := ih (ps.set p0 (0.5 * ps.getD p0 0 + 0.5 * v0))
          (rs.set p0 (rs.getD p0 0 + (ps.getD p0 0 - (0.5 * ps.getD p0 0 + 0.5 * v0))))
          (by simp [hlen]) hnd' pos v hmem' (by simpa using hlt)
        rw [hstep, hres.1, hres.2, getD_set_ne _ _ _ _ _ hne, getD_set_ne _ _ _ _ _ hne]
        exact ⟨rfl, rfl⟩
      · have hstep : apply_pairs ((p0, v0) :: tl) (ps, rs) = apply_pairs tl (ps, rs) := by
          simp [apply_pairs, h]
        rw [hstep]
        exact ih ps rs hlen hnd' pos v hmem' hlt

/-- The dense blend preserves the parameter count. -/
theorem dense_blend_length (ps : List ℚ) : ∀ vs : List ℚ,
    (dense_blend ps vs).length = ps.length := by
  induction ps with
  | nil => intro vs; cases vs <;> simp [dense_blend]
  | cons p ps ih => intro vs; cases vs <;> simp [dense_blend, ih]

/-- Inside the blended prefix, each entry is the 80/20 mix. -/
theorem dense_blend_getD_lt (ps : List ℚ) : ∀ vs : List ℚ, ∀ i : Nat,
    i < min ps.length vs.length →
    (dense_blend ps vs).getD i 0 = 0.8 * ps.getD i 0 + 0.2 * vs.getD i 0 := by
  induction ps with
  | nil => intro vs i h; simp at h
  | cons p ps ih =>
    intro vs i h
    cases vs with
    | nil => simp at h
    | cons v vs =>
      cases i with
      | zero => simp [dense_blend]
      | succ n =>
        have hn : n < min ps.length vs.length := by
          simp only [List.length_cons] at h; omega
        simpa [dense_blend] using ih vs n hn

/-- Beyond the blended prefix, parameters are unchanged. -/
theorem dense_blend_getD_ge (ps : List ℚ) : ∀ vs : List ℚ, ∀ i : Nat,
    min ps.length vs.length ≤ i →
    (dense_blend ps vs).getD i 0 = ps.getD i 0 := by
  induction ps with
  | nil => intro vs i _; cases vs <;> simp [dense_blend]
  | cons p ps ih =>
    intro vs i h
    cases vs with
    | nil => simp [dense_blend]
    | cons v vs =>
      cases i with
      | zero =>
        exfalso
        rw [List.length_cons, List.length_cons] at h
        omega
      | succ n =>
        have hn : min ps.length vs.length ≤ n := by
          simp only [List.length_cons] at h; omega
        simpa [dense_blend] using ih vs n hn

/-- Membership is preserved by stable insertion. -/
theorem mem_sort_insert {α : Type} (goes_after : α → α → Bool) (x y : α) (l : List α) :
    y ∈ sort_insert goes_after x l ↔ y = x ∨ y ∈ l := by
  induction l with
  | nil => simp [sort_insert]
  | cons z zs ih =>
    simp only [sort_insert]
    split
    · simp only [List.mem_cons, ih]; tauto
    · simp [List.mem_cons]

/-- Membership is preserved by the stable sort. -/
theorem mem_stable_sort {α : Type} (goes_after : α → α → Bool) (y : α) (l : List α) :
    y ∈ stable_sort goes_after l ↔ y ∈ l := by
  induction l with
  | nil => simp [stable_sort]
  | cons z zs ih => simp [stable_sort, mem_sort_insert, ih]

/-- In an association list with no duplicate keys, a key determines its
value. -/
theorem nodup_key_eq {α β : Type} [DecidableEq α] {l : List (α × β)}
    (hnd : (l.map Prod.fst).Nodup) {a : α} {b c : β}
    (h1 : (a, b) ∈ l) (h2 : (a, c) ∈ l) : b = c := by
  induction l with
  | nil => simp at h1
  | cons hd tl ih =>
    obtain ⟨a0, b0⟩ := hd
    simp only [List.map_cons, List.nodup_cons] at hnd
    obtain ⟨hhd, hnd'⟩ := hnd
    rcases List.mem_cons.mp h1 with he1 | hm1 <;> rcases List.mem_cons.mp h2 with he2 | hm2
    · obtain ⟨ha1, hb1⟩ := Prod.mk.injEq .. ▸ he1
      obtain ⟨ha2, hb2⟩ := Prod.mk.injEq .. ▸ he2
      rw [hb1, hb2]
    · obtain ⟨ha1, hb1⟩ := Prod.mk.injEq .. ▸ he1
      exfalso; exact hhd (ha1 ▸ List.mem_map_of_mem Prod.fst hm2)
    · obtain ⟨ha2, hb2⟩ := Prod.mk.injEq .. ▸ he2
      exfalso; exact hhd (ha2 ▸ List.mem_map_of_mem Prod.fst hm1)
    · exact ih hnd' hm1 hm2

/-- The fill loop, from arbitrary accumulators, appends the eligible
entries in ranked order: first into `primary` until `max_neighbors`,
then into `backups` until `failover_pool`; the early `break` drops the
rest. -/
theorem neighbor_fill_spec (cfg : TopologyConfig) (l : List (String × PeerProfile)) :
    ∀ p b : List String,
    neighbor_fill cfg l p b =
      (p ++ ((l.filter (fun x => cfg.min_score ≤ x.2.score)).map Prod.fst).take
          (cfg.max_neighbors - p.length),
       b ++ (((l.filter (fun x => cfg.min_score ≤ x.2.score)).map Prod.fst).drop
          (cfg.max_neighbors - p.length)).take (cfg.failover_pool - b.length)) := by
  induction l with
  | nil => intro p b; simp [neighbor_fill]
  | cons hd tl ih =>
    intro p b
    obtain ⟨peer, profile⟩ := hd
    by_cases hsc : profile.score < cfg.min_score
    · have hstep : neighbor_fill cfg ((peer, profile) :: tl) p b = neighbor_fill cfg tl p b := by
        simp [neighbor_fill, hsc]
      have hf : ((peer, profile) :: tl).filter (fun x => cfg.min_score ≤ x.2.score)
          = tl.filter (fun x => cfg.min_score ≤ x.2.score) := by
        simp [List.filter_cons, not_le.mpr hsc]
      rw [hstep, ih p b, hf]
    · have hf : ((peer, profile) :: tl).filter (fun x => cfg.min_score ≤ x.2.score)
          = (peer, profile) :: tl.filter (fun x => cfg.min_score ≤ x.2.score) := by
        simp [List.filter_cons, not_lt.mp hsc]
      by_cases hp : p.length < cfg.max_neighbors
      · have hstep : neighbor_fill cfg ((peer, profile) :: tl) p b =
            neighbor_fill cfg tl (p ++ [peer]) b := by
          simp [neighbor_fill, hsc, hp]
        have h1 : cfg.max_neighbors - p.length =
            (cfg.max_neighbors - (p ++ [peer]).length) + 1 := by
          rw [List.length_append, List.length_singleton]; omega
        rw [hstep, ih (p ++ [peer]) b, hf, h1]
        simp [List.take_succ_cons, List.drop_succ_cons, List.append_assoc]
      · by_cases hb : b.length < cfg.failover_pool
        · have hstep : neighbor_fill cfg ((peer, profile) :: tl) p b =
              neighbor_fill cfg tl p (b ++ [peer]) := by
            simp [neighbor_fill, hsc, hp, hb]
          have h0 : cfg.max_neighbors - p.length = 0 := by omega
          have h2 : cfg.failover_pool - b.length =
              (cfg.failover_pool - (b ++ [peer]).length) + 1 := by
            rw [List.length_append, List.length_singleton]; omega
          rw [hstep, ih p (b ++ [peer]), hf, h0, h2]
          simp [List.take_succ_cons, List.drop_succ_cons, List.append_assoc]
        · have hstep : neighbor_fill cfg ((peer, profile) :: tl) p b = (p, b) := by
            simp [neighbor_fill, hsc, hp, hb]
          have h0 : cfg.max_neighbors - p.length = 0 := by omega
          have h3 : cfg.failover_pool - b.length = 0 := by omega
          rw [hstep, hf, h0, h3]
          simp

/-- C1 counterexample: on the scenario-1 state (D = 8, zero params,
residual [0.1, -0.9, 0.5, 0.05, -0.2, 0.7, 0, 0.3]) the call
`make_sparse_update 3` returns no update at all — the selection visits
indices 1, 5, 2 in magnitude order, the third index difference 2 - 5
underflows and the call panics — so in particular it does not return an
update with decoded indices [1, 5, 7], stored indices [1, 4, 2] and
values [-0.9, 0.7, 0.3], and the residual is not rewritten as claimed. -/
theorem make_sparse_update_c1_counterexample : make_sparse_update c1_state 3 = none := by
  norm_num [make_sparse_update, top_k, stable_sort, sort_insert, emit_loop, qabs, u64_sadd1,
    c1_state]

/-- C1 amended: the three largest-magnitude entries of
`params + residual` are, in the order the unsorted selection emits them,
(1, -0.9), (5, 0.7), (2, 0.5) — note 0.5 at index 2 outranks 0.3 at
index 7, contrary to the claimed selection — and because index 2 follows
index 5 the delta-encoding subtraction underflows, so the call panics
instead of returning an update. -/
theorem make_sparse_update_c1_actual :
    top_k c1_state 3 = [(1, -0.9), (5, 0.7), (2, 0.5)] ∧
    make_sparse_update c1_state 3 = none := by
  constructor
  · norm_num [top_k, stable_sort, sort_insert, qabs, c1_state]
  · norm_num [make_sparse_update, top_k, stable_sort, sort_insert, emit_loop, qabs, u64_sadd1,
      c1_state]

/-- C2 failing input: for the state D = 2, params [0, 0],
residual [1, 2] and k = 2, the magnitude-ranked selection is
[(1, 2), (0, 1)] — not re-sorted ascending — so the index difference
0 - 1 underflows and `make_sparse_update` panics instead of returning an
update whose decoded indices are strictly ascending and within [0, D). -/
theorem make_sparse_update_c2_underflow :
    top_k c2_state 2 = [(1, 2), (0, 1)] ∧ make_sparse_update c2_state 2 = none := by
  constructor
  · norm_num [top_k, stable_sort, sort_insert, qabs, c2_state]
  · norm_num [make_sparse_update, top_k, stable_sort, sort_insert, emit_loop, qabs, u64_sadd1,
      c2_state]

/-- C9 failing input: for the state D = 3, params [0, 0, 0],
residual [1, 0, 2] and k = 2, the selection visits index 2 before
index 0, so the subtraction 0 - 2 computing the index difference
underflows and the emission loop panics: it is not total. -/
theorem make_sparse_update_c9_underflow :
    top_k c9_state 2 = [(2, 2), (0, 1)] ∧ make_sparse_update c9_state 2 = none := by
  constructor
  · norm_num [top_k, stable_sort, sort_insert, qabs, c9_state]
  · norm_num [make_sparse_update, top_k, stable_sort, sort_insert, emit_loop, qabs, u64_sadd1,
      c9_state]

/-- C3 counterexample: on a 1-dimensional state with version 5, the call
`make_sparse_update 0` does not return the empty update with the current
version and an unchanged state: it bumps the version to 6, both in the
returned update and in the stored state. -/
theorem make_sparse_update_k0_counterexample :
    make_sparse_update c3_state 0 ≠ some (⟨[], [], c3_state.version⟩, c3_state) := by
  norm_num [make_sparse_update, top_k, stable_sort, sort_insert, emit_loop, qabs, u64_sadd1,
    c3_state]

/-- C3 amended: if D = 0 the call returns the empty update with the
current version and leaves the state untouched (the early return of
lines 72-78); but if k = 0 while D > 0 the function falls through to the
main path with an empty selection, so it still bumps the stored version
by one (saturating) and returns the empty update carrying the bumped
version, with params and residual unchanged. -/
theorem make_sparse_update_empty_spec (s : ModelState) (k : Nat) :
    (s.params.length = 0 → make_sparse_update s k = some (⟨[], [], s.version⟩, s)) ∧
    (k = 0 → s.params.length ≠ 0 → make_sparse_update s k =
      some (⟨[], [], u64_sadd1 s.version⟩, ⟨s.params, s.residual, u64_sadd1 s.version⟩)) := by
  constructor
  · intro h
    simp [make_sparse_update, h]
  · intro hk hd
    subst hk
    simp [make_sparse_update, hd, top_k, emit_loop]

/-- C3 witness: the amended theorem applied to the concrete 1-dimensional
state with version 5 and k = 0. -/
theorem make_sparse_update_empty_spec_witness :
    make_sparse_update c3_state 0 =
      some (⟨[], [], u64_sadd1 c3_state.version⟩,
        ⟨c3_state.params, c3_state.residual, u64_sadd1 c3_state.version⟩) :=
  (make_sparse_update_empty_spec c3_state 0).2 rfl (by decide)

/-- C10: an update with empty `indices` hits the early return of
line 115-117, so the whole model state — params, residual and version —
is left exactly as it was, even when the update carries a larger
version. -/
theorem apply_sparse_update_empty_frame (s : ModelState) (u : SparseUpdate)
    (h : u.indices = []) : apply_sparse_update s u = s := by
  simp [apply_sparse_update, h]

/-- C10 witness: a concrete state and an empty update with a larger
version (9 > 3) leave the state unchanged. -/
theorem apply_sparse_update_empty_frame_witness :
    apply_sparse_update c10_state c10_update = c10_state :=
  apply_sparse_update_empty_frame c10_state c10_update rfl

/-- C4 counterexample: the claim fails for updates with empty indices:
applying the empty update with version 10 to a state with version 5
leaves the version at 5, not at max(5, 10) = 10, because of the early
return. -/
theorem apply_sparse_update_version_counterexample :
    (apply_sparse_update c4_state c4_update).version ≠
      max c4_state.version c4_update.version := by
  norm_num [apply_sparse_update, c4_state, c4_update]

/-- C4 amended: for an update with nonempty indices, the version becomes
max(old, u.version), lengths are preserved, positions outside the decoded
(position, value) pairs keep their parameter and residual entries, and —
when the decoded positions are pairwise distinct, as every well-formed
delta-encoded update yields — each in-range decoded pair (pos, v) ends
with params[pos] = 0.5·old + 0.5·v and residual[pos] increased by
old - new, while out-of-range positions are silently skipped (they
modify nothing and do not stop the other entries from being applied).
An update with empty indices instead leaves the whole state unchanged. -/
theorem apply_sparse_update_spec (s : ModelState) (u : SparseUpdate)
    (hlen : s.residual.length = s.params.length) (hne : u.indices ≠ []) :
    (apply_sparse_update s u).version = max s.version u.version ∧
    (apply_sparse_update s u).params.length = s.params.length ∧
    (apply_sparse_update s u).residual.length = s.residual.length ∧
    (∀ j : Nat, j ∉ ((decompress_indices u.indices).zip u.values).map Prod.fst →
      (apply_sparse_update s u).params.getD j 0 = s.params.getD j 0 ∧
      (apply_sparse_update s u).residual.getD j 0 = s.residual.getD j 0) ∧
    ((((decompress_indices u.indices).zip u.values).map Prod.fst).Nodup →
      ∀ pos : Nat, ∀ v : ℚ, (pos, v) ∈ (decompress_indices u.indices).zip u.values →
        pos < s.params.length →
        (apply_sparse_update s u).params.getD pos 0
          = 0.5 * s.params.getD pos 0 + 0.5 * v ∧
        (apply_sparse_update s u).residual.getD pos 0
          = s.residual.getD pos 0
            + (s.params.getD pos 0 - (0.5 * s.params.getD pos 0 + 0.5 * v))) := by
  have hE : u.indices.isEmpty = false := by
    cases hu : u.indices with
    | nil => exact absurd hu hne
    | cons a l => rfl
  have hrw : apply_sparse_update s u =
      ⟨(apply_pairs ((decompress_indices u.indices).zip u.values) (s.params, s.residual)).1,
       (apply_pairs ((decompress_indices u.indices).zip u.values) (s.params, s.residual)).2,
       max s.version u.version⟩ := by
    simp [apply_sparse_update, hE]
  refine ⟨by rw [hrw], ?_, ?_, ?_, ?_⟩
  · rw [hrw]
    exact (apply_pairs_length _ s.params s.residual).1
  · rw [hrw]
    exact (apply_pairs_length _ s.params s.residual).2
  · intro j hj
    rw [hrw]
    exact apply_pairs_frame _ s.params s.residual j hj
  · intro hnd pos v hmem hlt
    rw [hrw]
    exact apply_pairs_point _ s.params s.residual hlen hnd pos v hmem hlt

/-- C4 witness: spec §8 scenario 3 — D = 3, zero params, decoded
positions [1, 5] with values [4, 9]: position 1 becomes
0.5·0 + 0.5·4 = 2 with residual 0 - 2 = -2, position 0 is untouched, the
out-of-range position 5 is skipped, and the version rises to
max(5, 7) = 7. -/
theorem apply_sparse_update_spec_witness :
    (apply_sparse_update w4_state w4_update).params.getD 1 0 = 2 ∧
    (apply_sparse_update w4_state w4_update).residual.getD 1 0 = -2 ∧
    (apply_sparse_update w4_state w4_update).params.getD 0 0 = 0 ∧
    (apply_sparse_update w4_state w4_update).version = 7 := by
  have h := apply_sparse_update_spec w4_state w4_update rfl (by decide)
  have hdec : (decompress_indices w4_update.indices).zip w4_update.values
      = [(1, (4 : ℚ)), (5, 9)] := by
    norm_num [w4_update, decompress_indices, decompress_go]
  have hnd : (((decompress_indices w4_update.indices).zip w4_update.values).map
      Prod.fst).Nodup := by
    rw [hdec]; decide
  have hpt := h.2.2.2.2 hnd 1 4 (by rw [hdec]; simp) (by norm_num [w4_state])
  have hfr := h.2.2.2.1 0 (by rw [hdec]; decide)
  refine ⟨?_, ?_, ?_, ?_⟩
  · rw [hpt.1]; norm_num [w4_state]
  · rw [hpt.2]; norm_num [w4_state]
  · rw [hfr.1]; norm_num [w4_state]
  · rw [h.1]; norm_num [w4_state, w4_update]

/-- C5: `apply_dense_snapshot` blends
params[i] := 0.8·params[i] + 0.2·values[i] on the common prefix
i < min(D, len(values)), leaves every other parameter and the whole
residual unchanged, preserves the parameter count, and raises the
version to max(old, snapshot.version). -/
theorem apply_dense_snapshot_spec (s : ModelState) (snapshot : TensorSnapshot) :
    (apply_dense_snapshot s snapshot).version = max s.version snapshot.version ∧
    (apply_dense_snapshot s snapshot).residual = s.residual ∧
    (apply_dense_snapshot s snapshot).params.length = s.params.length ∧
    (∀ i : Nat, i < min s.params.length snapshot.values.length →
      (apply_dense_snapshot s snapshot).params.getD i 0
        = 0.8 * s.params.getD i 0 + 0.2 * snapshot.values.getD i 0) ∧
    (∀ i : Nat, min s.params.length snapshot.values.length ≤ i →
      (apply_dense_snapshot s snapshot).params.getD i 0 = s.params.getD i 0) := by
  refine ⟨rfl, rfl, dense_blend_length s.params snapshot.values, ?_, ?_⟩
  · intro i hi
    exact dense_blend_getD_lt s.params snapshot.values i hi
  · intro i hi
    exact dense_blend_getD_ge s.params snapshot.values i hi

/-- C5 witness: spec §8 scenario 2 — params [1, 2], snapshot [3, -2]
with version 10 against current version 5 gives
params [0.8·1 + 0.2·3, 0.8·2 + 0.2·(-2)] = [1.4, 1.2] and version 10. -/
theorem apply_dense_snapshot_spec_witness :
    (apply_dense_snapshot c5_state c5_snapshot).params.getD 0 0 = 1.4 ∧
    (apply_dense_snapshot c5_state c5_snapshot).params.getD 1 0 = 1.2 ∧
    (apply_dense_snapshot c5_state c5_snapshot).version = 10 := by
  have h := apply_dense_snapshot_spec c5_state c5_snapshot
  have h0 := h.2.2.2.1 0 (by norm_num [c5_state, c5_snapshot])
  have h1 := h.2.2.2.1 1 (by norm_num [c5_state, c5_snapshot])
  refine ⟨?_, ?_, ?_⟩
  · rw [h0]; norm_num [c5_state, c5_snapshot]
  · rw [h1]; norm_num [c5_state, c5_snapshot]
  · rw [h.1]; norm_num [c5_state, c5_snapshot]

/-- C6: `CryptoSuite::verify` returns true only when the Curve-A check,
the Curve-B check, the case-insensitive address equality and the exact
pubkey equality all hold; consequently a bundle embedding any other
address or pubkey is always rejected, whatever the curve-level checks
would say. -/
theorem crypto_verify_only_own (c : CryptoSuite) (payload : List Nat)
    (bundle : SignatureBundle) :
    (c.verify payload bundle = true →
      to_lowercase bundle.eth.address = to_lowercase c.eth.address ∧
      bundle.sol.pubkey = c.sol.pubkey ∧
      c.eth.sig_valid payload bundle.eth.signature = true ∧
      c.sol.sig_valid payload bundle.sol.signature = true) ∧
    (to_lowercase bundle.eth.address ≠ to_lowercase c.eth.address ∨
        bundle.sol.pubkey ≠ c.sol.pubkey →
      c.verify payload bundle = false) := by
  constructor
  · intro h
    simp only [CryptoSuite.verify, Bool.and_eq_true] at h
    obtain ⟨he, hs⟩ := h
    simp only [EthIdentity.verify] at he
    simp only [SolIdentity.verify] at hs
    rcases Decidable.em (to_lowercase bundle.eth.address = to_lowercase c.eth.address) with h1 | h1
    · rcases Decidable.em (bundle.sol.pubkey = c.sol.pubkey) with h2 | h2
      · rw [if_neg (not_not_intro h1)] at he
        rw [if_neg (not_not_intro h2)] at hs
        exact ⟨h1, h2, he, hs⟩
      · rw [if_pos h2] at hs
        exact absurd hs (by simp)
    · rw [if_pos h1] at he
      exact absurd he (by simp)
  · intro h
    rcases h with h1 | h2
    · simp [CryptoSuite.verify, EthIdentity.verify, h1]
    · simp [CryptoSuite.verify, SolIdentity.verify, h2]

/-- C6 witness: with accepting curve oracles, a bundle embedding the
node's own address (differing only in case) and its own pubkey passes,
and its characterization holds; a bundle embedding another peer's pubkey
is rejected outright. -/
theorem crypto_verify_only_own_witness :
    (to_lowercase c6_bundle.eth.address = to_lowercase c6_suite.eth.address ∧
      c6_bundle.sol.pubkey = c6_suite.sol.pubkey ∧
      c6_suite.eth.sig_valid [1] c6_bundle.eth.signature = true ∧
      c6_suite.sol.sig_valid [1] c6_bundle.sol.signature = true) ∧
    CryptoSuite.verify c6_suite [1] c6_bundle_other = false :=
  ⟨(crypto_verify_only_own c6_suite [1] c6_bundle).1 (by decide),
   (crypto_verify_only_own c6_suite [1] c6_bundle_other).2 (Or.inr (by decide))⟩

/-- C7: signing any payload with the consensus engine and verifying the
resulting SignedGossip with the same engine succeeds, because the bundle
embeds the node's own address and pubkey, the payload is re-serialized
by the same deterministic serializer, and the curve-level oracles accept
their own fresh signatures (the round-trip property of the underlying
cryptographic libraries, taken as hypotheses). -/
theorem sign_verify_roundtrip (e : ConsensusEngine)
    (heth : ∀ p, e.crypto.eth.sig_valid p (e.crypto.eth.sig_hex p) = true)
    (hsol : ∀ p, e.crypto.sol.sig_valid p (e.crypto.sol.sig_b58 p) = true)
    (x : GgsMessage) : e.verify (e.sign x) = true := by
  simp [ConsensusEngine.verify, ConsensusEngine.sign, CryptoSuite.verify,
    CryptoSuite.sign_bytes, EthIdentity.verify, EthIdentity.sign,
    SolIdentity.verify, SolIdentity.sign, heth, hsol]

/-- C7 witness: the round-trip on a concrete engine and a concrete
heartbeat payload. -/
theorem sign_verify_roundtrip_witness :
    c7_engine.verify (c7_engine.sign (GgsMessage.heartbeat ("node") ("hash"))) = true :=
  sign_verify_roundtrip c7_engine (fun _ => rfl) (fun _ => rfl) _

/-- C8: `neighbor_sets` returns exactly the first `max_neighbors`
eligible ranked names as primaries and the next `failover_pool` as
backups, and (when peer names are distinct, as a HashMap guarantees) a
peer whose score is strictly below `min_score` appears in neither
list. -/
theorem neighbor_sets_spec (cfg : TopologyConfig) (peers : List (String × PeerProfile))
    (hnd : (peers.map Prod.fst).Nodup) :
    (neighbor_sets cfg peers).1
      = ((eligible_ranked cfg peers).map Prod.fst).take cfg.max_neighbors ∧
    (neighbor_sets cfg peers).2
      = (((eligible_ranked cfg peers).map Prod.fst).drop cfg.max_neighbors).take
          cfg.failover_pool ∧
    (∀ name : String, ∀ profile : PeerProfile, (name, profile) ∈ peers →
      profile.score < cfg.min_score →
      name ∉ (neighbor_sets cfg peers).1 ∧ name ∉ (neighbor_sets cfg peers).2) := by
  have hfill := neighbor_fill_spec cfg (rank_peers peers) [] []
  have h1 : (neighbor_sets cfg peers).1
      = ((eligible_ranked cfg peers).map Prod.fst).take cfg.max_neighbors := by
    simp [neighbor_sets, hfill, eligible_ranked]
  have h2 : (neighbor_sets cfg peers).2
      = (((eligible_ranked cfg peers).map Prod.fst).drop cfg.max_neighbors).take
          cfg.failover_pool := by
    simp [neighbor_sets, hfill, eligible_ranked]
  refine ⟨h1, h2, ?_⟩
  intro name profile hmem hlow
  have hkey : ∀ x : String × PeerProfile, x ∈ eligible_ranked cfg peers → x.1 = name → False := by
    intro x hx hxn
    have hx1 : x ∈ rank_peers peers := List.mem_of_mem_filter hx
    have hx2 : x ∈ peers := (mem_stable_sort _ x peers).mp hx1
    have hsc : cfg.min_score ≤ x.2.score := by
      simpa using List.of_mem_filter hx
    obtain ⟨xa, xb⟩ := x
    rw [show xa = name from hxn] at hx2
    have heq : profile = xb := nodup_key_eq hnd hmem hx2
    rw [← heq] at hsc
    exact absurd hlow (not_lt.mpr hsc)
  constructor
  · intro hin
    rw [h1] at hin
    obtain ⟨x, hx, hxn⟩ := List.mem_map.mp (List.mem_of_mem_take hin)
    exact hkey x hx hxn
  · intro hin
    rw [h2] at hin
    obtain ⟨x, hx, hxn⟩ :=
      List.mem_map.mp (List.mem_of_mem_drop (List.mem_of_mem_take hin))
    exact hkey x hx hxn

/-- C8 witness: spec §8 scenario 4 — max_neighbors 2, failover_pool 1,
min_score 0.2, scores A 0.9, B 0.5, C 0.3, D 0.1: peer D is filtered
out of both lists. -/
theorem neighbor_sets_spec_witness :
    ("D") ∉ (neighbor_sets c8_cfg c8_peers).1 ∧
    ("D") ∉ (neighbor_sets c8_cfg c8_peers).2 := by
  have h := neighbor_sets_spec c8_cfg c8_peers (by decide)
  exact h.2.2 ("D") (c8_profile 0.1) (by simp [c8_peers]) (by norm_num [c8_profile, c8_cfg])
